import Mathlib

/-!
Verification of the StackOverflow question-count collector
(scripts/fetch_data.py and scripts/starting_fetch_data.py).

The development shallowly embeds the core of the two scripts:

* the calendar arithmetic (month_delta, the midnight truncation and the
  one-day shift used to build the query window, and the epoch-second
  conversion performed by the Python datetime library on valid dates);
* the bucketing functions (day_bucket from fetch_data.py, bucket_date
  from starting_fetch_data.py);
* the paginated fetcher fetch_questions of fetch_data.py, modelled over
  an abstract network (a function from page number to page response);
  the while-loop is driven by the fuel maxPages + 1 - page, which is the
  number of remaining allowed pages;
* the per-tag aggregation loop of fetch_data.py, including the
  try/except RuntimeError boundary (a missing creation_date key raises a
  KeyError, which that boundary does not catch) and the final row
  construction and sort.

Network requests, sleeps and file writes are side effects outside the
value-level behaviour being verified; the fetcher is parameterized by
the page responses it would observe, and the CSV write is represented by
the list of rows that would be written.
-/

/-- Model of a Python datetime.datetime in UTC, at second granularity.
The scripts zero the microsecond field before any value-relevant use. -/
structure DateTime where
  year : Int
  month : Int
  day : Int
  hour : Int
  minute : Int
  second : Int
deriving DecidableEq, Repr

/-- Embedding of the per-month day-count list literal that appears in
month_delta in both scripts:
31, (29 if leap else 28), 31, 30, 31, 30, 31, 31, 30, 31, 30, 31. -/
def days_in_month_list (y : Int) : List Int :=
  [31, if y % 4 = 0 ∧ (y % 100 ≠ 0 ∨ y % 400 = 0) then 29 else 28,
   31, 30, 31, 30, 31, 31, 30, 31, 30, 31]

/-- Index access list[m - 1] used by month_delta (m is a 1-based month). -/
def daysInMonth (y m : Int) : Int := (days_in_month_list y).getD (m - 1).toNat 0

/-- Validity of a calendar date: month in 1..12 and day in 1..last day of
that month, per the Gregorian calendar used by Python datetime. -/
abbrev ValidDate (d : DateTime) : Prop :=
  1 ≤ d.month ∧ d.month ≤ 12 ∧ 1 ≤ d.day ∧ d.day ≤ daysInMonth d.year d.month

/-- Embedding of month_delta from fetch_data.py lines 18-28 (the function
in starting_fetch_data.py lines 17-22 is the same computation).  Python
floor division and modulus by the positive constant 12 coincide with the
euclidean operations used here. -/
def month_delta (d : DateTime) (months : Int) : DateTime :=
  let y := d.year + (d.month - 1 + months) / 12
  let m := (d.month - 1 + months) % 12 + 1
  let day := min d.day (daysInMonth y m)
  { d with year := y, month := m, day := day }

/-- Days contributed by the years before year y, as computed inside the
Python datetime library (its internal days-before-year helper), counting
from year 1. -/
def daysBeforeYear (y : Int) : Int :=
  365 * (y - 1) + (y - 1) / 4 - (y - 1) / 100 + (y - 1) / 400

/-- Indicator of a Gregorian leap year. -/
def leapFlag (y : Int) : Int :=
  if y % 4 = 0 ∧ (y % 100 ≠ 0 ∨ y % 400 = 0) then 1 else 0

/-- Cumulative day counts before each month in a non-leap year. -/
def daysBeforeMonthBase (m : Int) : Int :=
  if m ≤ 1 then 0 else if m ≤ 2 then 31 else if m ≤ 3 then 59
  else if m ≤ 4 then 90 else if m ≤ 5 then 120 else if m ≤ 6 then 151
  else if m ≤ 7 then 181 else if m ≤ 8 then 212 else if m ≤ 9 then 243
  else if m ≤ 10 then 273 else if m ≤ 11 then 304 else if m ≤ 12 then 334
  else 365

/-- Days contributed by the months of year y before month m, as computed
inside the Python datetime library (its internal days-before-month
helper). -/
def daysBeforeMonth (y m : Int) : Int :=
  daysBeforeMonthBase m + (if 2 < m then leapFlag y else 0)

/-- Day number of a date, with 0001-01-01 mapped to 0 (Python ordinal
minus one). -/
def dayNumber (d : DateTime) : Int :=
  daysBeforeYear d.year + daysBeforeMonth d.year d.month + d.day - 1

/-- Day number of 1970-01-01, the Unix epoch. -/
def epochDayNumber : Int := 719162

/-- Embedding of to_unix from fetch_data.py lines 13-15: the Python
datetime.timestamp() of a UTC-aware datetime with zero microseconds,
which is the count of seconds since 1970-01-01T00:00:00Z computed from
the proleptic Gregorian ordinal. -/
def to_unix (d : DateTime) : Int :=
  86400 * (dayNumber d - epochDayNumber) + 3600 * d.hour + 60 * d.minute + d.second

/-- Embedding of d.replace(hour=0, minute=0, second=0, microsecond=0)
from fetch_data.py lines 92-93. -/
def truncMidnight (d : DateTime) : DateTime :=
  { d with hour := 0, minute := 0, second := 0 }

/-- Calendar successor of a date: the embedding of adding
datetime.timedelta(days=1) (fetch_data.py line 97) on a valid date. -/
def succDay (d : DateTime) : DateTime :=
  if d.day < daysInMonth d.year d.month then { d with day := d.day + 1 }
  else if d.month < 12 then { d with month := d.month + 1, day := 1 }
  else { d with year := d.year + 1, month := 1, day := 1 }

/-- Calendar predecessor of a date: the embedding of subtracting
datetime.timedelta(days=1) on a valid date. -/
def predDay (d : DateTime) : DateTime :=
  if 1 < d.day then { d with day := d.day - 1 }
  else if 1 < d.month then { d with month := d.month - 1, day := daysInMonth d.year (d.month - 1) }
  else { d with year := d.year - 1, month := 12, day := 31 }

/-- Iterated calendar predecessor: date minus n days. -/
def subDays (d : DateTime) : Nat → DateTime
  | 0 => d
  | n + 1 => subDays (predDay d) n

/-- Weekday index with Monday = 0, as returned by Python date.weekday():
day number 0 (0001-01-01) is a Monday. -/
def weekday (d : DateTime) : Int := dayNumber d % 7

/-- Decimal digit character. -/
def digitChar (n : Nat) : Char := Char.ofNat (48 + n % 10)

/-- Two-digit zero-padded decimal rendering (%02d for values below 100). -/
def pad2 (n : Nat) : List Char := [digitChar (n / 10 % 10), digitChar (n % 10)]

/-- Four-digit zero-padded decimal rendering (%04d for values below 10000). -/
def pad4 (n : Nat) : List Char :=
  [digitChar (n / 1000 % 10), digitChar (n / 100 % 10), digitChar (n / 10 % 10), digitChar (n % 10)]

/-- Embedding of date.isoformat(): the YYYY-MM-DD rendering of the date
part of a datetime, with the %04d-%02d-%02d layout Python uses for
in-range dates. -/
def isoformat (d : DateTime) : String :=
  String.mk (pad4 d.year.toNat ++ '-' :: (pad2 d.month.toNat ++ '-' :: pad2 d.day.toNat))

/-- Embedding of day_bucket from fetch_data.py lines 31-32:
created_utc.date().isoformat(). -/
def day_bucket (created_utc : DateTime) : String := isoformat created_utc

/-- Embedding of bucket_date from starting_fetch_data.py lines 25-30:
day granularity returns the ISO date; week granularity returns the
ISO date of creation_utc.date() minus weekday(creation_utc.date()) days. -/
def bucket_date (creation_utc : DateTime) (grain : String) : String :=
  if grain = "day" then isoformat creation_utc
  else isoformat (subDays creation_utc (weekday creation_utc).toNat)

/-- Civil-from-days conversion (days counted from 1970-01-01), the
inverse calendar conversion performed by datetime.fromtimestamp for the
date part; euclidean division by positive constants is floor division. -/
def civilFromDays (z0 : Int) : Int × Int × Int :=
  let z := z0 + 719468
  let era := z / 146097
  let doe := z - era * 146097
  let yoe := (doe - doe / 1460 + doe / 36524 - doe / 146096) / 365
  let y := yoe + era * 400
  let doy := doe - (365 * yoe + yoe / 4 - yoe / 100)
  let mp := (5 * doy + 2) / 153
  let d := doy - (153 * mp + 2) / 5 + 1
  let m := mp + (if mp < 10 then 3 else -9)
  (y + (if m ≤ 2 then 1 else 0), m, d)

/-- Embedding of datetime.fromtimestamp(ts, tz=timezone.utc) at second
granularity (fetch_data.py line 112). -/
def fromtimestamp (ts : Int) : DateTime :=
  let days := ts / 86400
  let secs := ts % 86400
  let c := civilFromDays days
  ⟨c.1, c.2.1, c.2.2, secs / 3600, secs % 3600 / 60, secs % 60⟩

-- Sanity checks of the datetime embedding on known values.
example : to_unix ⟨1970, 1, 1, 0, 0, 0⟩ = 0 := by decide
example : to_unix ⟨2024, 3, 1, 0, 0, 0⟩ = 1709251200 := by decide
example : fromtimestamp 1709251200 = ⟨2024, 3, 1, 0, 0, 0⟩ := by decide
example : weekday ⟨2024, 3, 1, 0, 0, 0⟩ = 4 := by decide
example : weekday ⟨1970, 1, 1, 0, 0, 0⟩ = 3 := by decide
example : isoformat ⟨2024, 3, 1, 12, 30, 0⟩ = "2024-03-01" := by decide
example : month_delta ⟨2024, 3, 31, 0, 0, 0⟩ (-1) = ⟨2024, 2, 29, 0, 0, 0⟩ := by decide
example : month_delta ⟨2023, 3, 31, 0, 0, 0⟩ (-1) = ⟨2023, 2, 28, 0, 0, 0⟩ := by decide
example : bucket_date ⟨2024, 3, 1, 12, 30, 0⟩ "week" = "2024-02-26" := by decide

/-- Raw item record as consumed by the core: the creation_date key may
be absent from the JSON object (Python raises KeyError on access). -/
structure Item where
  creation_date : Option Int
deriving DecidableEq, Repr

/-- One page response of the external API, as read by fetch_questions:
HTTP status, response body text, the optional quota_remaining and
backoff payload fields, the items array, and the has_more flag. -/
structure PageResponse where
  status : Nat
  body : String
  quota_remaining : Option Int
  backoff : Int
  items : List Item
  has_more : Bool
deriving DecidableEq, Repr

/-- Truncation s[:n] of a Python string (by code points). -/
def strTake (s : String) (n : Nat) : String := String.mk (s.data.take n)

/-- Content of the RuntimeError raised by fetch_questions in
fetch_data.py: the HTTP case (line 57) carries the status, tag, page and
the response body truncated to 1500 characters; the quota case (line 63)
carries the tag and page. -/
inductive FetchErr where
  | httpError (status : Nat) (tag : String) (page : Nat) (bodyTrunc : String)
  | quotaExhausted (tag : String) (page : Nat)
deriving DecidableEq, Repr

/-- Termination state of the generator: normal exhaustion (has_more
false or the page cap reached), or a RuntimeError raised mid-stream. -/
inductive FetchOutcome where
  | success
  | fatal (e : FetchErr)
deriving DecidableEq, Repr

/-- Observable behaviour of one full drive of the fetch_questions
generator: the items yielded, in order, and how the sequence ended. -/
structure FetchResult where
  items : List Item
  outcome : FetchOutcome
deriving DecidableEq, Repr

/-- Loop body of fetch_questions from fetch_data.py lines 35-77 over an
abstract network net mapping a page number to its response.  The fuel
argument counts the remaining allowed pages, so a call at page p carries
fuel maxPages + 1 - p; fuel 0 means page > max_pages and the while loop
exits (success: cap reached).  On a non-200 status the generator raises
(no item of the page is yielded); with quota_remaining equal to 0 it
raises before processing items; the sleep on a positive backoff is a
pure delay with no value-level effect; otherwise the page items are
yielded and the loop continues exactly when has_more is truthy. -/
def fetchGo (net : Nat → PageResponse) (tag : String) : Nat → Nat → FetchResult
  | _, 0 => ⟨[], .success⟩
  | page, fuel + 1 =>
    let r := net page
    if r.status ≠ 200 then
      ⟨[], .fatal (.httpError r.status tag page (strTake r.body 1500))⟩
    else if r.quota_remaining = some 0 then
      ⟨[], .fatal (.quotaExhausted tag page)⟩
    else if r.has_more then
      let rest := fetchGo net tag (page + 1) fuel
      ⟨r.items ++ rest.items, rest.outcome⟩
    else
      ⟨r.items, .success⟩

/-- Embedding of fetch_questions(tag, fromdate, todate, pagesize,
max_pages) from fetch_data.py: the loop starts at page 1 with max_pages
pages allowed.  The query parameters (site, tag, window bounds, order,
sort, filter) select which abstract network function is driven; they do
not appear in the loop logic itself. -/
def fetch_questions (net : Nat → PageResponse) (tag : String) (maxPages : Nat) : FetchResult :=
  fetchGo net tag 1 maxPages

/-- CountTable key: (bucket date string, tag string). -/
abbrev CountKey := String × String

/-- CountTable as built by counts = defaultdict(int): an association
list in key insertion order, mirroring Python dict iteration order. -/
abbrev CountTable := List (CountKey × Nat)

/-- Embedding of counts[key] += 1 on a defaultdict(int): bump an
existing entry, or append a fresh entry with count 1. -/
def bump : CountTable → CountKey → CountTable
  | [], k => [(k, 1)]
  | (k0, v) :: rest, k =>
    if k0 = k then (k0, v + 1) :: rest else (k0, v) :: bump rest k

/-- Exceptions other than the fetcher's RuntimeError that can escape the
per-tag loop body: accessing q["creation_date"] on an item without that
key raises KeyError, which the except RuntimeError clause does not
catch. -/
inductive PyError where
  | keyError
deriving DecidableEq, Repr

/-- Embedding of the per-item body of the for-loop in fetch_data.py
lines 111-115: for each yielded item, read creation_date (KeyError if
absent), convert it to a UTC datetime, and increment the
(day_bucket(created), tag) entry; the fetched counter follows the number
of items processed. -/
def processItems (tag : String) : List Item → CountTable → Except PyError (CountTable × Nat)
  | [], counts => .ok (counts, 0)
  | it :: rest, counts =>
    match it.creation_date with
    | none => .error .keyError
    | some ts =>
      let created := fromtimestamp ts
      match processItems tag rest (bump counts (day_bucket created, tag)) with
      | .error e => .error e
      | .ok (c, n) => .ok (c, n + 1)

/-- Per-tag summary printed by main: the tag, the number of fetched
items, and the RuntimeError reported by the except branch, if any. -/
structure TagReport where
  tag : String
  fetched : Nat
  fetchError : Option FetchErr
deriving DecidableEq, Repr

/-- Embedding of one iteration of the tag loop in fetch_data.py lines
104-124: drive the generator for this tag, consume the yielded items
into the count table, and catch only RuntimeError — a fatal fetch error
is reported together with the partial fetched count and the loop
continues; a KeyError from a malformed item is not caught and
propagates. -/
def processTag (net : String → Nat → PageResponse) (maxPages : Nat) (counts : CountTable)
    (tag : String) : Except PyError (CountTable × TagReport) :=
  match processItems tag (fetch_questions (net tag) tag maxPages).items counts with
  | .error e => .error e
  | .ok (c, n) =>
    match (fetch_questions (net tag) tag maxPages).outcome with
    | .fatal e => .ok (c, ⟨tag, n, some e⟩)
    | .success => .ok (c, ⟨tag, n, none⟩)

/-- Embedding of the whole tag loop of fetch_data.py main: tags are
processed sequentially against one shared count table; an uncaught
exception aborts the remaining iterations and the rest of main. -/
def runTags (net : String → Nat → PageResponse) (maxPages : Nat) :
    List String → CountTable → Except PyError (CountTable × List TagReport)
  | [], counts => .ok (counts, [])
  | tag :: rest, counts =>
    match processTag net maxPages counts tag with
    | .error e => .error e
    | .ok (c, rep) =>
      match runTags net maxPages rest c with
      | .error e => .error e
      | .ok (c2, reps) => .ok (c2, rep :: reps)

/-- One output row {date, tag, questions_count} (fetch_data.py line 127). -/
structure Row where
  date : String
  tag : String
  questions_count : Nat
deriving DecidableEq, Repr

/-- Row construction from the count table (fetch_data.py line 127). -/
def rowsOf (counts : CountTable) : List Row :=
  counts.map (fun kv => ⟨kv.1.1, kv.1.2, kv.2⟩)

/-- Lexicographic strict comparison of Python strings: scan for the
first differing position; code points are compared numerically (the
Char order is the code point order). -/
def charListLt : List Char → List Char → Bool
  | _, [] => false
  | [], _ :: _ => true
  | a :: as, b :: bs => if a < b then true else if b < a then false else charListLt as bs

/-- Strict string comparison a < b as performed by Python. -/
def strLtB (a b : String) : Bool := charListLt a.data b.data

/-- Strict comparison of the sort keys (x["date"], x["tag"]): Python
tuple comparison, lexicographic on the two string components. -/
def rowKeyLt (a b : Row) : Bool :=
  strLtB a.date b.date || (a.date = b.date && strLtB a.tag b.tag)

/-- Stable insertion of a row into an already sorted list: the row goes
after every element whose key is strictly smaller and after equal keys,
as a stable sort demands. -/
def insertRow (r : Row) : List Row → List Row
  | [] => [r]
  | x :: xs => if rowKeyLt x r then x :: insertRow r xs else r :: x :: xs

/-- Embedding of rows.sort(key=lambda x: (x["date"], x["tag"])) in
fetch_data.py line 128: a stable sort by the two-key lexicographic
comparison (insertion sort computes the same list as Python's stable
sort for this comparison). -/
def sortRows : List Row → List Row
  | [] => []
  | r :: rs => insertRow r (sortRows rs)

/-- Value-level summary of a whole run of fetch_data.py main for a given
tag list: the rows the CSV writer would write, or none when an uncaught
exception aborts the run before the file is written (the CSV is written
only after the tag loop completes). -/
def writtenRows (net : String → Nat → PageResponse) (maxPages : Nat)
    (tags : List String) : Option (List Row) :=
  match runTags net maxPages tags [] with
  | .error _ => none
  | .ok (c, _) => some (sortRows (rowsOf c))

/-- Items yielded across the full run of the fetcher for one tag. -/
def tagItems (net : String → Nat → PageResponse) (maxPages : Nat) (tag : String) : List Item :=
  (fetch_questions (net tag) tag maxPages).items

/-- Total number of items the fetcher yields for a given tag across all
loop iterations that process that tag (a tag listed twice is fetched
twice). -/
def totalYielded (net : String → Nat → PageResponse) (maxPages : Nat)
    (tags : List String) (tag : String) : Nat :=
  (tags.map (fun t => if t = tag then (tagItems net maxPages t).length else 0)).sum

/-- Sum of the CountTable counts over all bucket keys carrying a given
tag. -/
def sumForTag (counts : CountTable) (tag : String) : Nat :=
  (counts.map (fun kv => if kv.1.2 = tag then kv.2 else 0)).sum

/-- Error component of a fetch outcome. -/
def outcomeError : FetchOutcome → Option FetchErr
  | .success => none
  | .fatal e => some e

/-- The report main prints for one tag when no exception escapes. -/
def tagReportOf (net : String → Nat → PageResponse) (maxPages : Nat) (tag : String) : TagReport :=
  ⟨tag, (tagItems net maxPages tag).length,
    outcomeError (fetch_questions (net tag) tag maxPages).outcome⟩

/-- Every item yielded by the fetcher during the run carries a
creation_date field. -/
def WellFormedRun (net : String → Nat → PageResponse) (maxPages : Nat)
    (tags : List String) : Prop :=
  ∀ t ∈ tags, ∀ it ∈ tagItems net maxPages t, it.creation_date ≠ none

instance (net : String → Nat → PageResponse) (maxPages : Nat) (tags : List String) :
    Decidable (WellFormedRun net maxPages tags) := by
  unfold WellFormedRun; infer_instance

/-! Calendrical lemmas about the embedded date arithmetic. -/

theorem daysInMonth_bounds (y m : Int) (h1 : 1 ≤ m) (h2 : m ≤ 12) :
    28 ≤ daysInMonth y m ∧ daysInMonth y m ≤ 31 := by
  interval_cases m <;>
    simp [daysInMonth, days_in_month_list] <;> split_ifs <;> omega

theorem daysInMonth_twelve (y : Int) : daysInMonth y 12 = 31 := by
  simp [daysInMonth, days_in_month_list]

theorem daysBeforeMonth_one (y : Int) : daysBeforeMonth y 1 = 0 := by
  simp [daysBeforeMonth, daysBeforeMonthBase]

theorem daysBeforeMonth_twelve (y : Int) : daysBeforeMonth y 12 = 334 + leapFlag y := by
  simp [daysBeforeMonth, daysBeforeMonthBase]

theorem daysBeforeMonth_thirteen (y : Int) : daysBeforeMonth y 13 = 365 + leapFlag y := by
  simp [daysBeforeMonth, daysBeforeMonthBase]

theorem daysBeforeMonth_step (y m : Int) (h1 : 1 ≤ m) (h2 : m ≤ 12) :
    daysBeforeMonth y (m + 1) = daysBeforeMonth y m + daysInMonth y m := by
  interval_cases m <;>
    simp [daysBeforeMonth, daysBeforeMonthBase, daysInMonth, days_in_month_list, leapFlag] <;>
    split_ifs <;> omega

theorem daysBeforeMonth_le_aux (y m1 : Int) (h1 : 1 ≤ m1) :
    ∀ k : Nat, m1 + k ≤ 13 → daysBeforeMonth y m1 ≤ daysBeforeMonth y (m1 + k) := by
  intro k
  induction k with
  | zero => simp
  | succ j ih =>
    intro hk
    have hb := daysInMonth_bounds y (m1 + j) (by omega) (by omega)
    have hs := daysBeforeMonth_step y (m1 + j) (by omega) (by omega)
    have hih := ih (by omega)
    have he : m1 + (((j + 1 : Nat) : Int)) = m1 + (j : Int) + 1 := by push_cast; ring
    rw [he]
    omega

theorem daysBeforeMonth_le_of_le (y m1 m2 : Int) (h1 : 1 ≤ m1) (h : m1 ≤ m2) (h2 : m2 ≤ 13) :
    daysBeforeMonth y m1 ≤ daysBeforeMonth y m2 := by
  have he : m1 + ((m2 - m1).toNat : Int) = m2 := by omega
  have hk := daysBeforeMonth_le_aux y m1 h1 (m2 - m1).toNat (by omega)
  rw [he] at hk
  exact hk

theorem daysBeforeMonth_nonneg (y m : Int) (h1 : 1 ≤ m) (h2 : m ≤ 13) :
    0 ≤ daysBeforeMonth y m := by
  have h0 := daysBeforeMonth_one y
  have := daysBeforeMonth_le_of_le y 1 m (by omega) h1 h2
  omega

theorem daysBeforeMonth_mono (y m1 m2 : Int) (h1 : 1 ≤ m1) (h : m1 < m2) (h2 : m2 ≤ 13) :
    daysBeforeMonth y m1 + daysInMonth y m1 ≤ daysBeforeMonth y m2 := by
  have hs := daysBeforeMonth_step y m1 h1 (by omega)
  have hl := daysBeforeMonth_le_of_le y (m1 + 1) m2 (by omega) (by omega) h2
  omega

theorem daysBeforeYear_step (y : Int) :
    daysBeforeYear (y + 1) = daysBeforeYear y + 365 + leapFlag y := by
  unfold daysBeforeYear leapFlag; split_ifs <;> omega

theorem daysBeforeYear_mono (y1 y2 : Int) (h : y1 < y2) :
    daysBeforeYear y1 + 365 + leapFlag y1 ≤ daysBeforeYear y2 := by
  unfold daysBeforeYear leapFlag; split_ifs <;> omega

theorem leapFlag_nonneg (y : Int) : 0 ≤ leapFlag y := by
  unfold leapFlag; split_ifs <;> omega

/-- Strict monotonicity of the day number with respect to the
lexicographic order on (year, month, day), over valid dates. -/
theorem dayNumber_lt_of_lex (a b : DateTime) (ha : ValidDate a) (hb : ValidDate b)
    (h : a.year < b.year ∨
      (a.year = b.year ∧ (a.month < b.month ∨ (a.month = b.month ∧ a.day < b.day)))) :
    dayNumber a < dayNumber b := by
  obtain ⟨ha1, ha2, ha3, ha4⟩ := ha
  obtain ⟨hb1, hb2, hb3, hb4⟩ := hb
  unfold dayNumber
  rcases h with hy | ⟨hy, hm | ⟨hm, hd⟩⟩
  · have hcap := daysBeforeMonth_mono a.year a.month 13 ha1 (by omega) (by omega)
    have h13 := daysBeforeMonth_thirteen a.year
    have hyy := daysBeforeYear_mono a.year b.year hy
    have hnn := daysBeforeMonth_nonneg b.year b.month hb1 (by omega)
    omega
  · rw [hy] at ha4 ⊢
    have hmm := daysBeforeMonth_mono b.year a.month b.month ha1 hm (by omega)
    omega
  · rw [hy, hm] at ha4 ⊢
    omega

/-- Two valid dates with the same day number have the same calendar
fields. -/
theorem dayNumber_inj (a b : DateTime) (ha : ValidDate a) (hb : ValidDate b)
    (h : dayNumber a = dayNumber b) :
    a.year = b.year ∧ a.month = b.month ∧ a.day = b.day := by
  rcases lt_trichotomy a.year b.year with hy | hy | hy
  · have := dayNumber_lt_of_lex a b ha hb (Or.inl hy); omega
  · rcases lt_trichotomy a.month b.month with hm | hm | hm
    · have := dayNumber_lt_of_lex a b ha hb (Or.inr ⟨hy, Or.inl hm⟩); omega
    · rcases lt_trichotomy a.day b.day with hd | hd | hd
      · have := dayNumber_lt_of_lex a b ha hb (Or.inr ⟨hy, Or.inr ⟨hm, hd⟩⟩); omega
      · exact ⟨hy, hm, hd⟩
      · have := dayNumber_lt_of_lex b a hb ha (Or.inr ⟨hy.symm, Or.inr ⟨hm.symm, hd⟩⟩); omega
    · have := dayNumber_lt_of_lex b a hb ha (Or.inr ⟨hy.symm, Or.inl hm⟩); omega
  · have := dayNumber_lt_of_lex b a hb ha (Or.inl hy); omega

/-- The linear month index 12 * year + (month - 1) is shifted by exactly
the requested number of months. -/
theorem month_delta_index (d : DateTime) (k : Int) :
    12 * (month_delta d k).year + (month_delta d k).month - 1 = 12 * d.year + d.month - 1 + k := by
  simp only [month_delta]
  omega

theorem month_delta_month_bounds (d : DateTime) (k : Int) :
    1 ≤ (month_delta d k).month ∧ (month_delta d k).month ≤ 12 := by
  simp only [month_delta]
  omega

theorem month_delta_day (d : DateTime) (k : Int) :
    (month_delta d k).day = min d.day (daysInMonth (month_delta d k).year (month_delta d k).month) :=
  rfl

theorem month_delta_time (d : DateTime) (k : Int) :
    (month_delta d k).hour = d.hour ∧ (month_delta d k).minute = d.minute ∧
      (month_delta d k).second = d.second :=
  ⟨rfl, rfl, rfl⟩

theorem month_delta_valid (d : DateTime) (k : Int) (h : ValidDate d) :
    ValidDate (month_delta d k) := by
  obtain ⟨h1, h2, h3, h4⟩ := h
  obtain ⟨hm1, hm2⟩ := month_delta_month_bounds d k
  have hb := daysInMonth_bounds (month_delta d k).year (month_delta d k).month hm1 hm2
  refine ⟨hm1, hm2, ?_, ?_⟩
  · rw [month_delta_day]; omega
  · rw [month_delta_day]; omega

theorem dayNumber_succDay (d : DateTime) (h : ValidDate d) :
    dayNumber (succDay d) = dayNumber d + 1 := by
  obtain ⟨h1, h2, h3, h4⟩ := h
  unfold succDay
  split_ifs with hd hm
  · simp only [dayNumber]; omega
  · have hstep := daysBeforeMonth_step d.year d.month h1 h2
    simp only [dayNumber]; omega
  · have hy : d.month = 12 := by omega
    have h12 := daysBeforeMonth_twelve d.year
    have h1e := daysBeforeMonth_one (d.year + 1)
    have hys := daysBeforeYear_step d.year
    have hd12 := daysInMonth_twelve d.year
    simp only [dayNumber]
    rw [hy] at h4 ⊢
    rw [hy] at hd
    omega

theorem succDay_time (d : DateTime) :
    (succDay d).hour = d.hour ∧ (succDay d).minute = d.minute ∧ (succDay d).second = d.second := by
  unfold succDay
  split_ifs <;> exact ⟨rfl, rfl, rfl⟩

theorem predDay_valid (d : DateTime) (h : ValidDate d) : ValidDate (predDay d) := by
  obtain ⟨h1, h2, h3, h4⟩ := h
  unfold predDay
  split_ifs with hd hm
  · refine ⟨h1, h2, ?_, ?_⟩ <;> dsimp only <;> omega
  · have hb := daysInMonth_bounds d.year (d.month - 1) (by omega) (by omega)
    refine ⟨?_, ?_, ?_, ?_⟩ <;> dsimp only <;> omega
  · have h12 := daysInMonth_twelve (d.year - 1)
    refine ⟨?_, ?_, ?_, ?_⟩ <;> dsimp only <;> omega

theorem dayNumber_predDay (d : DateTime) (h : ValidDate d) :
    dayNumber (predDay d) = dayNumber d - 1 := by
  obtain ⟨h1, h2, h3, h4⟩ := h
  unfold predDay
  split_ifs with hd hm
  · simp only [dayNumber]; omega
  · have hstep := daysBeforeMonth_step d.year (d.month - 1) (by omega) (by omega)
    have hmm : d.month - 1 + 1 = d.month := by omega
    rw [hmm] at hstep
    simp only [dayNumber]; omega
  · have hm1 : d.month = 1 := by omega
    have h12 := daysBeforeMonth_twelve (d.year - 1)
    have h1e := daysBeforeMonth_one d.year
    have hys := daysBeforeYear_step (d.year - 1)
    have hyy : d.year - 1 + 1 = d.year := by omega
    rw [hyy] at hys
    simp only [dayNumber]
    rw [hm1]
    omega

theorem subDays_valid (n : Nat) (d : DateTime) (h : ValidDate d) : ValidDate (subDays d n) := by
  induction n generalizing d with
  | zero => exact h
  | succ k ih => exact ih (predDay d) (predDay_valid d h)

theorem dayNumber_subDays (n : Nat) (d : DateTime) (h : ValidDate d) :
    dayNumber (subDays d n) = dayNumber d - n := by
  induction n generalizing d with
  | zero => simp [subDays]
  | succ k ih =>
    have hp := dayNumber_predDay d h
    have := ih (predDay d) (predDay_valid d h)
    simp only [subDays] at *
    omega

/-! Aggregation lemmas: counting, per-tag processing, the tag loop. -/

theorem sumForTag_cons (k0 : CountKey) (v : Nat) (rest : CountTable) (tag : String) :
    sumForTag ((k0, v) :: rest) tag = (if k0.2 = tag then v else 0) + sumForTag rest tag := by
  simp [sumForTag]

theorem bump_sumForTag (counts : CountTable) (k : CountKey) (tag : String) :
    sumForTag (bump counts k) tag = sumForTag counts tag + (if k.2 = tag then 1 else 0) := by
  induction counts with
  | nil => simp [bump, sumForTag]
  | cons kv rest ih =>
    obtain ⟨k0, v⟩ := kv
    by_cases hk : k0 = k
    · subst hk
      rw [show bump ((k0, v) :: rest) k0 = (k0, v + 1) :: rest from by simp [bump]]
      rw [sumForTag_cons, sumForTag_cons]
      split_ifs <;> omega
    · rw [show bump ((k0, v) :: rest) k = (k0, v) :: bump rest k from by simp [bump, hk]]
      rw [sumForTag_cons, sumForTag_cons, ih]
      split_ifs <;> omega

theorem processItems_ok (tag : String) :
    ∀ (items : List Item) (counts : CountTable),
    (∀ it ∈ items, it.creation_date ≠ none) →
    ∃ c, processItems tag items counts = .ok (c, items.length) ∧
      ∀ t, sumForTag c t = sumForTag counts t + (if tag = t then items.length else 0) := by
  intro items
  induction items with
  | nil =>
    intro counts _
    exact ⟨counts, rfl, by intro t; simp⟩
  | cons it rest ih =>
    intro counts hwf
    match hcd : it.creation_date with
    | none => exact absurd hcd (hwf it (by simp))
    | some ts =>
      obtain ⟨c, hc, hsum⟩ :=
        ih (bump counts (day_bucket (fromtimestamp ts), tag)) (fun x hx => hwf x (by simp [hx]))
      refine ⟨c, ?_, ?_⟩
      · simp only [processItems, hcd, hc, List.length_cons]
      · intro t
        have hb := bump_sumForTag counts (day_bucket (fromtimestamp ts), tag) t
        have hs := hsum t
        simp only [List.length_cons]
        split_ifs at * <;> omega

theorem processItems_err (tag : String) :
    ∀ (items : List Item) (counts : CountTable),
    (∃ it ∈ items, it.creation_date = none) →
    processItems tag items counts = .error .keyError := by
  intro items
  induction items with
  | nil => intro counts h; simp at h
  | cons it rest ih =>
    intro counts h
    match hcd : it.creation_date with
    | none => simp [processItems, hcd]
    | some ts =>
      have hr : ∃ x ∈ rest, x.creation_date = none := by
        rcases h with ⟨x, hx, hnone⟩
        rcases List.mem_cons.mp hx with he | hm
        · subst he; rw [hcd] at hnone; cases hnone
        · exact ⟨x, hm, hnone⟩
      simp [processItems, hcd, ih _ hr]

theorem processItems_ok_wf (tag : String) :
    ∀ (items : List Item) (counts : CountTable) (c : CountTable) (n : Nat),
    processItems tag items counts = .ok (c, n) →
    ∀ it ∈ items, it.creation_date ≠ none := by
  intro items
  induction items with
  | nil => intro counts c n _ it hit; simp at hit
  | cons it0 rest ih =>
    intro counts c n hok it hit
    match hcd : it0.creation_date with
    | none => simp only [processItems, hcd] at hok; cases hok
    | some ts =>
      simp only [processItems, hcd] at hok
      rcases List.mem_cons.mp hit with he | hm
      · subst he; simp [hcd]
      · match hrec : processItems tag rest (bump counts (day_bucket (fromtimestamp ts), tag)) with
        | .error e => rw [hrec] at hok; cases hok
        | .ok (c2, n2) => exact ih _ c2 n2 hrec it hm

theorem processTag_ok (net : String → Nat → PageResponse) (mp : Nat) (counts : CountTable)
    (tag : String) (hwf : ∀ it ∈ tagItems net mp tag, it.creation_date ≠ none) :
    ∃ c, processTag net mp counts tag = .ok (c, tagReportOf net mp tag) ∧
      ∀ t, sumForTag c t = sumForTag counts t +
        (if tag = t then (tagItems net mp tag).length else 0) := by
  obtain ⟨c, hc, hsum⟩ := processItems_ok tag (tagItems net mp tag) counts hwf
  refine ⟨c, ?_, hsum⟩
  have hci : processItems tag (fetch_questions (net tag) tag mp).items counts
      = .ok (c, (tagItems net mp tag).length) := hc
  unfold processTag
  rw [hci]
  cases hout : (fetch_questions (net tag) tag mp).outcome <;>
    simp [tagReportOf, outcomeError, hout, tagItems]

theorem processTag_err (net : String → Nat → PageResponse) (mp : Nat) (counts : CountTable)
    (tag : String) (hbad : ∃ it ∈ tagItems net mp tag, it.creation_date = none) :
    processTag net mp counts tag = .error .keyError := by
  have hpe : processItems tag (fetch_questions (net tag) tag mp).items counts
      = .error .keyError := processItems_err tag (tagItems net mp tag) counts hbad
  unfold processTag
  rw [hpe]

theorem runTags_ok (net : String → Nat → PageResponse) (mp : Nat) :
    ∀ (tags : List String) (counts : CountTable),
    WellFormedRun net mp tags →
    ∃ c, runTags net mp tags counts = .ok (c, tags.map (tagReportOf net mp)) ∧
      ∀ t, sumForTag c t = sumForTag counts t + totalYielded net mp tags t := by
  intro tags
  induction tags with
  | nil =>
    intro counts _
    exact ⟨counts, rfl, by intro t; simp [totalYielded]⟩
  | cons tag rest ih =>
    intro counts hwf
    obtain ⟨c1, hc1, hsum1⟩ := processTag_ok net mp counts tag (hwf tag (by simp))
    obtain ⟨c2, hc2, hsum2⟩ := ih c1 (fun t ht => hwf t (by simp [ht]))
    refine ⟨c2, ?_, ?_⟩
    · simp only [runTags, hc1, hc2, List.map_cons]
    · intro t
      have h1 := hsum1 t
      have h2 := hsum2 t
      simp only [totalYielded, List.map_cons, List.sum_cons] at *
      split_ifs at * with h <;> simp_all <;> omega

theorem runTags_err (net : String → Nat → PageResponse) (mp : Nat) :
    ∀ (tags : List String) (counts : CountTable),
    (∃ t ∈ tags, ∃ it ∈ tagItems net mp t, it.creation_date = none) →
    runTags net mp tags counts = .error .keyError := by
  intro tags
  induction tags with
  | nil => intro counts h; simp at h
  | cons tag rest ih =>
    intro counts h
    by_cases hhead : ∃ it ∈ tagItems net mp tag, it.creation_date = none
    · simp only [runTags, processTag_err net mp counts tag hhead]
    · have hwf : ∀ it ∈ tagItems net mp tag, it.creation_date ≠ none := by
        intro it hit hnone
        exact hhead ⟨it, hit, hnone⟩
      have hrest : ∃ t ∈ rest, ∃ it ∈ tagItems net mp t, it.creation_date = none := by
        rcases h with ⟨t, ht, hb⟩
        rcases List.mem_cons.mp ht with he | hm
        · subst he; exact absurd hb hhead
        · exact ⟨t, hm, hb⟩
      obtain ⟨c1, hc1, _⟩ := processTag_ok net mp counts tag hwf
      simp only [runTags, hc1, ih c1 hrest]

/-! Ordering lemmas for the output sort. -/

theorem charListLt_irrefl : ∀ a : List Char, charListLt a a = false
  | [] => rfl
  | c :: cs => by
    simp only [charListLt, lt_irrefl, if_false]
    exact charListLt_irrefl cs

theorem charListLt_trans (a : List Char) :
    ∀ b c : List Char, charListLt a b = true → charListLt b c = true → charListLt a c = true := by
  induction a with
  | nil =>
    intro b c _ hbc
    cases c with
    | nil => cases b <;> simp [charListLt] at hbc
    | cons hc tc => simp [charListLt]
  | cons ha ta ih =>
    intro b c hab hbc
    cases b with
    | nil => simp [charListLt] at hab
    | cons hb tb =>
      cases c with
      | nil => simp [charListLt] at hbc
      | cons hc tc =>
        simp only [charListLt] at hab hbc ⊢
        by_cases h1 : ha < hb
        · by_cases h2 : hb < hc
          · simp [lt_trans h1 h2]
          · by_cases h3 : hc < hb
            · rw [if_neg h2, if_pos h3] at hbc; cases hbc
            · have hbceq : hb = hc := le_antisymm (not_lt.mp h3) (not_lt.mp h2)
              subst hbceq
              simp [h1]
        · by_cases h4 : hb < ha
          · rw [if_neg h1, if_pos h4] at hab; cases hab
          · have habeq : ha = hb := le_antisymm (not_lt.mp h4) (not_lt.mp h1)
            subst habeq
            rw [if_neg h1, if_neg h4] at hab
            by_cases h2 : ha < hc
            · simp [h2]
            · by_cases h3 : hc < ha
              · rw [if_neg h2, if_pos h3] at hbc; cases hbc
              · rw [if_neg h2, if_neg h3] at hbc ⊢
                exact ih tb tc hab hbc

theorem charListLt_antisymm : ∀ a b : List Char,
    charListLt a b = false → charListLt b a = false → a = b
  | [], [], _, _ => rfl
  | [], _ :: _, h1, _ => by simp [charListLt] at h1
  | _ :: _, [], _, h2 => by simp [charListLt] at h2
  | ha :: ta, hb :: tb, h1, h2 => by
    simp only [charListLt] at h1 h2
    by_cases hab : ha < hb
    · rw [if_pos hab] at h1; cases h1
    · by_cases hba : hb < ha
      · rw [if_pos hba] at h2; cases h2
      · have heq : ha = hb := le_antisymm (not_lt.mp hba) (not_lt.mp hab)
        subst heq
        rw [if_neg hab, if_neg hab] at h1 h2
        rw [charListLt_antisymm ta tb h1 h2]

theorem string_eq_of_data_eq (a b : String) (h : a.data = b.data) : a = b := by
  cases a; cases b; exact congrArg String.mk h

theorem strLtB_irrefl (s : String) : strLtB s s = false := charListLt_irrefl s.data

theorem strLtB_trans (a b c : String) (h1 : strLtB a b = true) (h2 : strLtB b c = true) :
    strLtB a c = true := charListLt_trans a.data b.data c.data h1 h2

theorem strLtB_antisymm (a b : String) (h1 : strLtB a b = false) (h2 : strLtB b a = false) :
    a = b := string_eq_of_data_eq a b (charListLt_antisymm a.data b.data h1 h2)

theorem rowKeyLt_irrefl (r : Row) : rowKeyLt r r = false := by
  simp [rowKeyLt, strLtB_irrefl]

theorem rowKeyLt_trans (a b c : Row) (h1 : rowKeyLt a b = true) (h2 : rowKeyLt b c = true) :
    rowKeyLt a c = true := by
  simp only [rowKeyLt, Bool.or_eq_true, Bool.and_eq_true, decide_eq_true_eq] at h1 h2 ⊢
  rcases h1 with hd1 | ⟨he1, ht1⟩
  · rcases h2 with hd2 | ⟨he2, ht2⟩
    · exact Or.inl (strLtB_trans _ _ _ hd1 hd2)
    · exact Or.inl (he2 ▸ hd1)
  · rcases h2 with hd2 | ⟨he2, ht2⟩
    · exact Or.inl (he1 ▸ hd2)
    · exact Or.inr ⟨he1.trans he2, strLtB_trans _ _ _ ht1 ht2⟩

theorem rowKeyLt_keys_eq (a b : Row) (h1 : rowKeyLt a b = false) (h2 : rowKeyLt b a = false) :
    a.date = b.date ∧ a.tag = b.tag := by
  simp only [rowKeyLt, Bool.or_eq_false_iff, Bool.and_eq_false_iff, decide_eq_false_iff_not] at h1 h2
  obtain ⟨hd1, hr1⟩ := h1
  obtain ⟨hd2, hr2⟩ := h2
  have hde : a.date = b.date := strLtB_antisymm _ _ hd1 hd2
  refine ⟨hde, ?_⟩
  rcases hr1 with hne | ht1
  · exact absurd hde hne
  rcases hr2 with hne | ht2
  · exact absurd hde.symm hne
  exact strLtB_antisymm _ _ ht1 ht2

theorem rowKeyLt_asymm (a b : Row) (h : rowKeyLt a b = true) : rowKeyLt b a = false := by
  by_contra hc
  have hba : rowKeyLt b a = true := by
    cases hh : rowKeyLt b a
    · exact absurd hh hc
    · rfl
  have := rowKeyLt_trans a b a h hba
  rw [rowKeyLt_irrefl] at this
  cases this

/-- Congruence: the strict key order only looks at the date and tag. -/
theorem rowKeyLt_congr_right (a b c : Row) (hd : a.date = b.date) (ht : a.tag = b.tag) :
    rowKeyLt c a = rowKeyLt c b := by
  simp [rowKeyLt, hd, ht]

theorem rowLe_trans (a b c : Row) (h1 : rowKeyLt b a = false) (h2 : rowKeyLt c b = false) :
    rowKeyLt c a = false := by
  cases hca : rowKeyLt c a
  · rfl
  · by_cases hab : rowKeyLt a b = true
    · have := rowKeyLt_trans c a b hca hab
      rw [h2] at this; cases this
    · have hab2 : rowKeyLt a b = false := by
        cases hh : rowKeyLt a b
        · rfl
        · exact absurd hh hab
      obtain ⟨hd, ht⟩ := rowKeyLt_keys_eq a b hab2 h1
      rw [rowKeyLt_congr_right a b c hd ht] at hca
      rw [h2] at hca; cases hca

theorem insertRow_mem (r : Row) : ∀ (l : List Row) (y : Row), y ∈ insertRow r l → y = r ∨ y ∈ l := by
  intro l
  induction l with
  | nil => intro y hy; simp [insertRow] at hy; exact Or.inl hy
  | cons x xs ih =>
    intro y hy
    simp only [insertRow] at hy
    split_ifs at hy with hx
    · rcases List.mem_cons.mp hy with he | hm
      · exact Or.inr (by simp [he])
      · rcases ih y hm with h | h
        · exact Or.inl h
        · exact Or.inr (by simp [h])
    · rcases List.mem_cons.mp hy with he | hm
      · exact Or.inl he
      · exact Or.inr hm

theorem insertRow_pairwise (r : Row) :
    ∀ l : List Row, l.Pairwise (fun a b => rowKeyLt b a = false) →
      (insertRow r l).Pairwise (fun a b => rowKeyLt b a = false) := by
  intro l
  induction l with
  | nil => intro _; simp [insertRow]
  | cons x xs ih =>
    intro hp
    rw [List.pairwise_cons] at hp
    obtain ⟨hx, hxs⟩ := hp
    simp only [insertRow]
    split_ifs with hlt
    · rw [List.pairwise_cons]
      refine ⟨?_, ih hxs⟩
      intro y hy
      rcases insertRow_mem r xs y hy with he | hm
      · subst he; exact rowKeyLt_asymm x y hlt
      · exact hx y hm
    · rw [List.pairwise_cons]
      refine ⟨?_, List.Pairwise.cons hx hxs⟩
      intro y hy
      rcases List.mem_cons.mp hy with he | hm
      · subst he
        cases hh : rowKeyLt y r
        · rfl
        · rw [hh] at hlt; exact absurd rfl hlt
      · exact rowLe_trans r x y (by cases hh : rowKeyLt x r; rfl; (rw [hh] at hlt; exact absurd rfl hlt)) (hx y hm)

theorem sortRows_pairwise (l : List Row) :
    (sortRows l).Pairwise (fun a b => rowKeyLt b a = false) := by
  induction l with
  | nil => simp [sortRows]
  | cons r rs ih => exact insertRow_pairwise r (sortRows rs) ih

theorem insertRow_perm (r : Row) : ∀ l : List Row, (insertRow r l).Perm (r :: l) := by
  intro l
  induction l with
  | nil => simp [insertRow]
  | cons x xs ih =>
    simp only [insertRow]
    split_ifs with hlt
    · exact ((ih.cons x).trans (List.Perm.swap r x xs))
    · exact List.Perm.refl _

theorem sortRows_perm (l : List Row) : (sortRows l).Perm l := by
  induction l with
  | nil => simp [sortRows]
  | cons r rs ih =>
    exact (insertRow_perm r (sortRows rs)).trans (ih.cons r)

/-! Query window of fetch_data.py main and its bridge lemmas. -/

/-- Embedding of the window computation in fetch_data.py lines 90-100:
start_dt and end_dt are the month-shifted dates truncated to midnight,
the exclusive upper bound is end_dt plus one day, and both bounds are
converted to epoch seconds. -/
def computeWindow (now : DateTime) (monthsFrom monthsTo : Int) : Int × Int :=
  let start_dt := truncMidnight (month_delta now (-monthsFrom))
  let end_dt := truncMidnight (month_delta now (-monthsTo))
  let to_dt_exclusive := succDay end_dt
  (to_unix start_dt, to_unix to_dt_exclusive)

/-- Day number of the UTC calendar day containing an epoch second. -/
def civilDayOf (ts : Int) : Int := ts / 86400 + epochDayNumber

theorem truncMidnight_valid (d : DateTime) (h : ValidDate d) : ValidDate (truncMidnight d) := h

theorem dayNumber_truncMidnight (d : DateTime) : dayNumber (truncMidnight d) = dayNumber d := rfl

theorem truncMidnight_time (d : DateTime) :
    (truncMidnight d).hour = 0 ∧ (truncMidnight d).minute = 0 ∧ (truncMidnight d).second = 0 :=
  ⟨rfl, rfl, rfl⟩

theorem to_unix_truncMidnight (d : DateTime) :
    to_unix (truncMidnight d) = 86400 * (dayNumber d - epochDayNumber) := by
  obtain ⟨h1, h2, h3⟩ := truncMidnight_time d
  unfold to_unix
  rw [dayNumber_truncMidnight d, h1, h2, h3]
  ring

theorem to_unix_succDay_truncMidnight (d : DateTime) (h : ValidDate d) :
    to_unix (succDay (truncMidnight d)) = 86400 * (dayNumber d + 1 - epochDayNumber) := by
  have hsd := dayNumber_succDay (truncMidnight d) (truncMidnight_valid d h)
  have ht := succDay_time (truncMidnight d)
  obtain ⟨h1, h2, h3⟩ := truncMidnight_time d
  unfold to_unix
  rw [hsd, dayNumber_truncMidnight d, ht.1, ht.2.1, ht.2.2, h1, h2, h3]
  ring

theorem daysInMonth_feb (y : Int) :
    daysInMonth y 2 = (if y % 4 = 0 ∧ (y % 100 ≠ 0 ∨ y % 400 = 0) then 29 else 28) := by
  simp [daysInMonth, days_in_month_list]

/-! Claim theorems. -/

/-- C4: for every valid current instant and month offsets with
from_months greater than to_months, the emitted fromdate epoch second is
strictly below the emitted todate epoch second. -/
theorem C4_window_start_lt_end (now : DateTime) (monthsFrom monthsTo : Int)
    (hv : ValidDate now) (h : monthsTo < monthsFrom) :
    (computeWindow now monthsFrom monthsTo).1 < (computeWindow now monthsFrom monthsTo).2 := by
  have hvs := month_delta_valid now (-monthsFrom) hv
  have hve := month_delta_valid now (-monthsTo) hv
  have his := month_delta_index now (-monthsFrom)
  have hie := month_delta_index now (-monthsTo)
  obtain ⟨hms1, hms2⟩ := month_delta_month_bounds now (-monthsFrom)
  obtain ⟨hme1, hme2⟩ := month_delta_month_bounds now (-monthsTo)
  have hlex : (month_delta now (-monthsFrom)).year < (month_delta now (-monthsTo)).year ∨
      ((month_delta now (-monthsFrom)).year = (month_delta now (-monthsTo)).year ∧
        ((month_delta now (-monthsFrom)).month < (month_delta now (-monthsTo)).month ∨
          ((month_delta now (-monthsFrom)).month = (month_delta now (-monthsTo)).month ∧
            (month_delta now (-monthsFrom)).day < (month_delta now (-monthsTo)).day))) := by
    omega
  have hdn := dayNumber_lt_of_lex _ _ hvs hve hlex
  have e1 := to_unix_truncMidnight (month_delta now (-monthsFrom))
  have e2 := to_unix_succDay_truncMidnight (month_delta now (-monthsTo)) hve
  simp only [computeWindow]
  omega

/-- Witness for C4 at a concrete instant and the default offsets 6 and 2. -/
theorem C4_witness :
    (computeWindow ⟨2025, 3, 15, 10, 30, 0⟩ 6 2).1 < (computeWindow ⟨2025, 3, 15, 10, 30, 0⟩ 6 2).2 :=
  C4_window_start_lt_end ⟨2025, 3, 15, 10, 30, 0⟩ 6 2 (by decide) (by decide)

/-- C5: the bounds passed to the fetcher are the midnight truncation of
the shifted start date and midnight of the shifted end date plus one
day, and an epoch second lies in the half-open interval they delimit
exactly when its civil day falls between the start date and the end date
inclusive (the end date counts as a whole calendar day). -/
theorem C5_half_open_whole_day_window (now : DateTime) (monthsFrom monthsTo ts : Int)
    (hv : ValidDate now) :
    computeWindow now monthsFrom monthsTo =
      (to_unix (truncMidnight (month_delta now (-monthsFrom))),
        to_unix (succDay (truncMidnight (month_delta now (-monthsTo))))) ∧
    (((computeWindow now monthsFrom monthsTo).1 ≤ ts ∧
        ts < (computeWindow now monthsFrom monthsTo).2) ↔
      (dayNumber (month_delta now (-monthsFrom)) ≤ civilDayOf ts ∧
        civilDayOf ts ≤ dayNumber (month_delta now (-monthsTo)))) := by
  have hve := month_delta_valid now (-monthsTo) hv
  have e1 := to_unix_truncMidnight (month_delta now (-monthsFrom))
  have e2 := to_unix_succDay_truncMidnight (month_delta now (-monthsTo)) hve
  refine ⟨rfl, ?_⟩
  simp only [computeWindow, civilDayOf, epochDayNumber] at *
  omega

/-- Witness for C5 at a concrete instant, offsets 6 and 2, and a
concrete probe timestamp. -/
theorem C5_witness :
    computeWindow ⟨2025, 3, 15, 10, 30, 0⟩ 6 2 =
      (to_unix (truncMidnight (month_delta ⟨2025, 3, 15, 10, 30, 0⟩ (-6))),
        to_unix (succDay (truncMidnight (month_delta ⟨2025, 3, 15, 10, 30, 0⟩ (-2))))) ∧
    (((computeWindow ⟨2025, 3, 15, 10, 30, 0⟩ 6 2).1 ≤ 1734000000 ∧
        (1734000000 : Int) < (computeWindow ⟨2025, 3, 15, 10, 30, 0⟩ 6 2).2) ↔
      (dayNumber (month_delta ⟨2025, 3, 15, 10, 30, 0⟩ (-6)) ≤ civilDayOf 1734000000 ∧
        civilDayOf 1734000000 ≤ dayNumber (month_delta ⟨2025, 3, 15, 10, 30, 0⟩ (-2)))) :=
  C5_half_open_whole_day_window ⟨2025, 3, 15, 10, 30, 0⟩ 6 2 1734000000 (by decide)

/-- C6: month shifting clamps the day to the last valid day of the
resulting month, the shifted date is a valid calendar date, and the
February clamp limit follows the Gregorian leap rule: 29 exactly when
the resulting year is divisible by 4 and (not divisible by 100 or
divisible by 400), 28 otherwise. -/
theorem C6_month_delta_clamp_leap_rule (d : DateTime) (hv : ValidDate d) (k : Int) :
    ValidDate (month_delta d k) ∧
    (month_delta d k).day =
      min d.day (daysInMonth (month_delta d k).year (month_delta d k).month) ∧
    (daysInMonth (month_delta d k).year 2 = 29 ↔
      ((month_delta d k).year % 4 = 0 ∧
        ((month_delta d k).year % 100 ≠ 0 ∨ (month_delta d k).year % 400 = 0))) ∧
    (daysInMonth (month_delta d k).year 2 = 28 ↔
      ¬((month_delta d k).year % 4 = 0 ∧
        ((month_delta d k).year % 100 ≠ 0 ∨ (month_delta d k).year % 400 = 0))) := by
  refine ⟨month_delta_valid d k hv, month_delta_day d k, ?_, ?_⟩
  · rw [daysInMonth_feb]
    split_ifs with hL
    · exact ⟨fun _ => hL, fun _ => rfl⟩
    · exact ⟨fun h28 => absurd h28 (by decide), fun hc => absurd hc hL⟩
  · rw [daysInMonth_feb]
    split_ifs with hL
    · exact ⟨fun h29 => absurd h29 (by decide), fun hc => absurd hL hc⟩
    · exact ⟨fun _ => hL, fun _ => rfl⟩

/-- Witness for C6: shifting 2023-12-31 by two months lands in February
of the leap year 2024. -/
theorem C6_witness :
    ValidDate (month_delta ⟨2023, 12, 31, 0, 0, 0⟩ 2) ∧
    (month_delta ⟨2023, 12, 31, 0, 0, 0⟩ 2).day =
      min (31 : Int) (daysInMonth (month_delta ⟨2023, 12, 31, 0, 0, 0⟩ 2).year
        (month_delta ⟨2023, 12, 31, 0, 0, 0⟩ 2).month) ∧
    (daysInMonth (month_delta ⟨2023, 12, 31, 0, 0, 0⟩ 2).year 2 = 29 ↔
      ((month_delta ⟨2023, 12, 31, 0, 0, 0⟩ 2).year % 4 = 0 ∧
        ((month_delta ⟨2023, 12, 31, 0, 0, 0⟩ 2).year % 100 ≠ 0 ∨
          (month_delta ⟨2023, 12, 31, 0, 0, 0⟩ 2).year % 400 = 0))) ∧
    (daysInMonth (month_delta ⟨2023, 12, 31, 0, 0, 0⟩ 2).year 2 = 28 ↔
      ¬((month_delta ⟨2023, 12, 31, 0, 0, 0⟩ 2).year % 4 = 0 ∧
        ((month_delta ⟨2023, 12, 31, 0, 0, 0⟩ 2).year % 100 ≠ 0 ∨
          (month_delta ⟨2023, 12, 31, 0, 0, 0⟩ 2).year % 400 = 0))) :=
  C6_month_delta_clamp_leap_rule ⟨2023, 12, 31, 0, 0, 0⟩ (by decide) 2

/-- C7: shifting a valid date by N months and then by minus N months
restores the original year and month; the day can only move downward
(clamping), never upward. -/
theorem C7_month_shift_roundtrip (d : DateTime) (hv : ValidDate d) (n : Int) :
    (month_delta (month_delta d n) (-n)).year = d.year ∧
    (month_delta (month_delta d n) (-n)).month = d.month ∧
    (month_delta (month_delta d n) (-n)).day ≤ d.day := by
  have h1 := month_delta_index d n
  have h2 := month_delta_index (month_delta d n) (-n)
  obtain ⟨hm1, hm2⟩ := month_delta_month_bounds d n
  obtain ⟨hn1, hn2⟩ := month_delta_month_bounds (month_delta d n) (-n)
  obtain ⟨hd1, hd2, hd3, hd4⟩ := hv
  refine ⟨by omega, by omega, ?_⟩
  rw [month_delta_day (month_delta d n) (-n)]
  have hd := month_delta_day d n
  refine le_trans (min_le_left _ _) ?_
  rw [hd]
  exact min_le_left _ _

/-- Witness for C7: 2024-01-31 shifted forward one month (to the clamped
2024-02-29) and back one month returns to January 2024 with a day not
above 31. -/
theorem C7_witness :
    (month_delta (month_delta ⟨2024, 1, 31, 0, 0, 0⟩ 1) (-1)).year = 2024 ∧
    (month_delta (month_delta ⟨2024, 1, 31, 0, 0, 0⟩ 1) (-1)).month = 1 ∧
    (month_delta (month_delta ⟨2024, 1, 31, 0, 0, 0⟩ 1) (-1)).day ≤ 31 :=
  C7_month_shift_roundtrip ⟨2024, 1, 31, 0, 0, 0⟩ (by decide) 1

theorem isoformat_congr (a b : DateTime) (hy : a.year = b.year) (hm : a.month = b.month)
    (hd : a.day = b.day) : isoformat a = isoformat b := by
  simp [isoformat, hy, hm, hd]

/-- C8: week bucketing returns the ISO date of the timestamp's date
minus its weekday index in days; that date is a Monday (weekday 0) and a
valid date, and any two datetimes in the same Monday-based week (same
quotient of the day number by 7; day number 0 is a Monday, so each
quotient class is exactly one Monday-to-Sunday span) get the identical
bucket key. -/
theorem C8_week_bucket_monday (d : DateTime) (hv : ValidDate d) :
    bucket_date d "week" = isoformat (subDays d (weekday d).toNat) ∧
    weekday (subDays d (weekday d).toNat) = 0 ∧
    ValidDate (subDays d (weekday d).toNat) ∧
    (∀ d2 : DateTime, ValidDate d2 → dayNumber d / 7 = dayNumber d2 / 7 →
      bucket_date d "week" = bucket_date d2 "week") := by
  have hval := subDays_valid (weekday d).toNat d hv
  have hdn := dayNumber_subDays (weekday d).toNat d hv
  refine ⟨?_, ?_, hval, ?_⟩
  · unfold bucket_date
    rw [if_neg (by decide)]
  · unfold weekday at hdn ⊢
    rw [hdn]
    omega
  · intro d2 hv2 hsame
    have hval2 := subDays_valid (weekday d2).toNat d2 hv2
    have hdn2 := dayNumber_subDays (weekday d2).toNat d2 hv2
    have hw1 : ((weekday d).toNat : Int) = dayNumber d % 7 := by unfold weekday; omega
    have hw2 : ((weekday d2).toNat : Int) = dayNumber d2 % 7 := by unfold weekday; omega
    have heq : dayNumber (subDays d (weekday d).toNat) =
        dayNumber (subDays d2 (weekday d2).toNat) := by
      rw [hdn, hdn2, hw1, hw2]
      omega
    obtain ⟨hy, hm, hdd⟩ := dayNumber_inj _ _ hval hval2 heq
    unfold bucket_date
    rw [if_neg (by decide), if_neg (by decide)]
    exact isoformat_congr _ _ hy hm hdd

/-- Witness for C8: a Friday (2024-03-01 12:30) and the Monday of its
week (2024-02-26) produce the same week bucket key. -/
theorem C8_witness :
    bucket_date ⟨2024, 3, 1, 12, 30, 0⟩ "week" = bucket_date ⟨2024, 2, 26, 0, 0, 0⟩ "week" :=
  (C8_week_bucket_monday ⟨2024, 3, 1, 12, 30, 0⟩ (by decide)).2.2.2
    ⟨2024, 2, 26, 0, 0, 0⟩ (by decide) (by decide)

/-- C3: when the while loop of fetch_questions is at a page it is still
allowed to request (nonzero fuel), a non-200 response makes the
generator raise immediately, reporting the status and the response body
truncated to 1500 characters, with no item of that page yielded; a
quota_remaining value of 0 in a 200 response likewise makes it raise
before processing items. -/
theorem C3_fatal_page_errors (net : Nat → PageResponse) (tag : String) (page fuel : Nat) :
    ((net page).status ≠ 200 →
      fetchGo net tag page (fuel + 1) =
        ⟨[], .fatal (.httpError (net page).status tag page (strTake (net page).body 1500))⟩) ∧
    ((net page).status = 200 → (net page).quota_remaining = some 0 →
      fetchGo net tag page (fuel + 1) = ⟨[], .fatal (.quotaExhausted tag page)⟩) := by
  constructor
  · intro h
    simp [fetchGo, h]
  · intro h hq
    simp [fetchGo, h, hq]

/-- Network stub returning a non-200 page. -/
def netHttpErr : Nat → PageResponse :=
  fun _ => ⟨500, "Internal Server Error body", none, 0, [], false⟩

/-- Network stub returning a 200 page with quota_remaining equal to 0. -/
def netQuotaZero : Nat → PageResponse :=
  fun _ => ⟨200, "", some 0, 0, [⟨some 1700000000⟩], true⟩

/-- Witness for C3 on both fatal cases at page 1 with the default page
cap. -/
theorem C3_witness :
    fetchGo netHttpErr "python" 1 50 =
      ⟨[], .fatal (.httpError 500 "python" 1 (strTake "Internal Server Error body" 1500))⟩ ∧
    fetchGo netQuotaZero "python" 1 50 = ⟨[], .fatal (.quotaExhausted "python" 1)⟩ :=
  ⟨(C3_fatal_page_errors netHttpErr "python" 1 49).1 (by decide),
    (C3_fatal_page_errors netQuotaZero "python" 1 49).2 (by decide) (by decide)⟩

/-- C1: when every yielded item carries creation_date, the run completes
and, for every tag, the sum of the count table over all bucket keys of
that tag equals the total number of items the fetcher yielded for that
tag: each item bumps exactly one (bucket, tag) entry by exactly one. -/
theorem C1_counts_sum_eq_yielded (net : String → Nat → PageResponse) (maxPages : Nat)
    (tags : List String) (hwf : WellFormedRun net maxPages tags) :
    ∃ c, runTags net maxPages tags [] = .ok (c, tags.map (tagReportOf net maxPages)) ∧
      ∀ tag, sumForTag c tag = totalYielded net maxPages tags tag := by
  obtain ⟨c, hc, hsum⟩ := runTags_ok net maxPages tags [] hwf
  refine ⟨c, hc, fun tag => ?_⟩
  simpa [sumForTag] using hsum tag

/-- C2: a fatal fetch error for one tag does not abort the run: the tag
loop still reaches every tag (one report per requested tag, in order),
the failing tag's report carries the error and the partial fetched
count, and the partial counts stay in the table, which still satisfies
the per-tag sum equation. -/
theorem C2_per_tag_failure_tolerated (net : String → Nat → PageResponse) (maxPages : Nat)
    (tags : List String) (t0 : String) (e : FetchErr)
    (hwf : WellFormedRun net maxPages tags) (ht0 : t0 ∈ tags)
    (hfail : (fetch_questions (net t0) t0 maxPages).outcome = .fatal e) :
    ∃ c, runTags net maxPages tags [] = .ok (c, tags.map (tagReportOf net maxPages)) ∧
      (tagReportOf net maxPages t0).fetchError = some e ∧
      (tagReportOf net maxPages t0).fetched = (tagItems net maxPages t0).length ∧
      (∀ tag, sumForTag c tag = totalYielded net maxPages tags tag) := by
  obtain ⟨c, hc, hsum⟩ := runTags_ok net maxPages tags [] hwf
  refine ⟨c, hc, ?_, rfl, fun tag => by simpa [sumForTag] using hsum tag⟩
  simp [tagReportOf, outcomeError, hfail]

/-- Witness network: the python tag fails with HTTP 503 on page 2 after
a full first page; the java tag succeeds in one page. -/
def netTwoTags : String → Nat → PageResponse := fun tag page =>
  if tag = "python" then
    if page = 1 then ⟨200, "", some 100, 0, [⟨some 1700000000⟩, ⟨some 1700003600⟩], true⟩
    else ⟨503, "Service Unavailable", none, 0, [], false⟩
  else
    if page = 1 then ⟨200, "", some 99, 0, [⟨some 1700007200⟩], false⟩
    else ⟨200, "", some 99, 0, [], false⟩

/-- Witness for C1 on the two-tag network. -/
theorem C1_witness :
    ∃ c, runTags netTwoTags 3 ["python", "java"] [] =
        .ok (c, ["python", "java"].map (tagReportOf netTwoTags 3)) ∧
      ∀ tag, sumForTag c tag = totalYielded netTwoTags 3 ["python", "java"] tag :=
  C1_counts_sum_eq_yielded netTwoTags 3 ["python", "java"] (by decide)

/-- Witness for C2: python fails on page 2 with a fatal HTTP error while
java completes; the run is not aborted and both reports appear. -/
theorem C2_witness :
    ∃ c, runTags netTwoTags 3 ["python", "java"] [] =
        .ok (c, ["python", "java"].map (tagReportOf netTwoTags 3)) ∧
      (tagReportOf netTwoTags 3 "python").fetchError =
        some (.httpError 503 "python" 2 (strTake "Service Unavailable" 1500)) ∧
      (tagReportOf netTwoTags 3 "python").fetched = (tagItems netTwoTags 3 "python").length ∧
      (∀ tag, sumForTag c tag = totalYielded netTwoTags 3 ["python", "java"] tag) :=
  C2_per_tag_failure_tolerated netTwoTags 3 ["python", "java"] "python"
    (.httpError 503 "python" 2 (strTake "Service Unavailable" 1500))
    (by decide) (by decide) (by decide)

/-- C10: if any tag's fetch yields an item without creation_date, the
KeyError is not caught by the per-tag except RuntimeError boundary; the
whole run aborts with that error and no rows are ever written. -/
theorem C10_malformed_item_aborts (net : String → Nat → PageResponse) (maxPages : Nat)
    (tags : List String)
    (hbad : ∃ t ∈ tags, ∃ it ∈ tagItems net maxPages t, it.creation_date = none) :
    runTags net maxPages tags [] = .error .keyError ∧
    writtenRows net maxPages tags = none := by
  have he := runTags_err net maxPages tags [] hbad
  exact ⟨he, by simp [writtenRows, he]⟩

/-- Witness network: one page whose second item lacks creation_date. -/
def netMalformed : String → Nat → PageResponse := fun _ page =>
  if page = 1 then ⟨200, "", some 100, 0, [⟨some 1700000000⟩, ⟨none⟩], false⟩
  else ⟨200, "", none, 0, [], false⟩

/-- Witness for C10. -/
theorem C10_witness :
    runTags netMalformed 2 ["python"] [] = .error .keyError ∧
    writtenRows netMalformed 2 ["python"] = none :=
  C10_malformed_item_aborts netMalformed 2 ["python"] (by decide)

/-- C9: the written rows are sorted ascending under the two-key
lexicographic comparison on (date, tag) (no later row is strictly
smaller than an earlier one), the date strings alone are also
non-decreasing (an earlier-date row precedes every later-date row
regardless of tag), and sorting only reorders the rows built from the
count table. -/
theorem C9_rows_sorted (counts : CountTable) :
    (sortRows (rowsOf counts)).Pairwise (fun a b => rowKeyLt b a = false) ∧
    (sortRows (rowsOf counts)).Pairwise
      (fun a b => strLtB a.date b.date = true ∨ a.date = b.date) ∧
    (sortRows (rowsOf counts)).Perm (rowsOf counts) := by
  refine ⟨sortRows_pairwise _, ?_, sortRows_perm _⟩
  refine List.Pairwise.imp ?_ (sortRows_pairwise (rowsOf counts))
  intro a b hab
  by_cases h1 : strLtB a.date b.date = true
  · exact Or.inl h1
  · by_cases h2 : strLtB b.date a.date = true
    · have hba : rowKeyLt b a = true := by simp [rowKeyLt, h2]
      rw [hab] at hba
      cases hba
    · refine Or.inr (strLtB_antisymm _ _ ?_ ?_)
      · cases hh : strLtB a.date b.date
        · rfl
        · exact absurd hh h1
      · cases hh : strLtB b.date a.date
        · rfl
        · exact absurd hh h2
